import Mathlib

/-!
Verification of the event-distribution core (`EventDistribution` class):
registry fan-out lookup (`getHandlers`), the filter pipeline
(`filterHandlers`), the dispatcher (`handleEvent`) and the autocomplete
sub-router (`handleAutocomplete`), shallowly embedded from the source.
-/

namespace YesBot

/-- Locations a message-related handler may be restricted to
(`EventLocation` in `types/base`, used by `isHandlerForLocation`). -/
inductive EventLocation where
  | anywhere
  | directMessage
  | server
deriving DecidableEq

/-- Reasons the filter pipeline may reject a candidate
(`HandlerRejectedReason` in `types/base`). -/
inductive HandlerRejectedReason where
  | wrongLocation
  | missingRole
  | doesntMatchRegex
deriving DecidableEq

/-- Modelled from the spec: the string enum values of `HandlerRejectedReason`
(declared in `types/base`, not part of the excerpt).  They are used as keys of
the per-handler error-message map, so all that matters is that the three
values are distinct strings. -/
def reasonKey : HandlerRejectedReason → String
  | .wrongLocation => "WRONG_LOCATION"
  | .missingRole => "MISSING_ROLE"
  | .doesntMatchRegex => "DOESNT_MATCH_REGEX"

/-- Handler identity: either a shared singleton object or a handler class
(`InstanceOrConstructor` in `types/hioc`).  JavaScript compares these by
reference, modelled here by a numeric identity token. -/
inductive InstanceOrConstructor where
  | inst (id : Nat)
  | ctor (id : Nat)
deriving DecidableEq

/-- The options bag of a registered handler.  `messageRelated` models the
external `isMessageRelated(options)` predicate from `events/events`
(Modelled from the spec: constraints that do not apply to the event kind
vacuously pass every stage).  `contentRegex` keeps the pattern source; the
regex engine itself is an external collaborator, passed as an oracle to the
filter functions.  `errors` is the optional error-message map. -/
structure HandlerOptions where
  messageRelated : Bool
  location : EventLocation
  allowedRoles : List String
  contentRegex : Option String
  errors : Option (List (String × String))
deriving DecidableEq

/-- A registered handler descriptor (`HIOC` in `types/hioc`): the handler
identity plus its options. -/
structure HIOC where
  ioc : InstanceOrConstructor
  options : HandlerOptions
deriving DecidableEq

/-- Registry tree (`StringIndexedHIOCTreeNode` in `types/hioc`): either a
terminal list of descriptors or a string-indexed map of child nodes.  The
JavaScript object is modelled as an association list with unique keys;
`getChild` is property access. -/
inductive HTree (H : Type) where
  | hiocs (hs : List H)
  | tree (children : List (String × HTree H))

/-- Property access `node[key]` on the children map of a registry node;
`none` models `undefined`. -/
def getChild {H : Type} : List (String × HTree H) → String → Option (HTree H)
  | [], _ => none
  | (k, t) :: rest, key => if k = key then some t else getChild rest key

theorem sizeOf_getChild_lt {H : Type} (cs : List (String × HTree H)) (key : String) :
    sizeOf (getChild cs key) < sizeOf (some (HTree.tree cs)) := by
  induction cs with
  | nil => simp [getChild]
  | cons c rest ih =>
    obtain ⟨k, t⟩ := c
    simp only [getChild]
    split
    · simp only [Option.some.sizeOf_spec, HTree.tree.sizeOf_spec, List.cons.sizeOf_spec,
        Prod.mk.sizeOf_spec]
      omega
    · simp only [Option.some.sizeOf_spec, HTree.tree.sizeOf_spec, List.cons.sizeOf_spec,
        Prod.mk.sizeOf_spec] at ih ⊢
      omega

/-- `EventDistribution.getHandlers` (src lines 387-405): fan-out lookup.
The first argument models the possibly-`undefined` `handlerTree` parameter
(`if (!handlerTree) return []`).  At an inner node the wildcard child
`handlerTree[""]` is descended first with the remaining keys; if the current
key is falsy (the path ran out, or the segment is the empty string) only that
wildcard result is returned, otherwise the literal child is descended as well
and appended. -/
def getHandlers {H : Type} : Option (HTree H) → List String → List H
  | none, _ => []
  | some (.hiocs hs), _ => hs
  | some (.tree cs), keys =>
    let handlers := getHandlers (getChild cs "") keys.tail
    match keys with
    | [] => handlers
    | currentKey :: restKeys =>
      if currentKey = "" then handlers
      else handlers ++ getHandlers (getChild cs currentKey) restKeys
termination_by o _ => sizeOf o
decreasing_by
  · exact sizeOf_getChild_lt cs ""
  · exact sizeOf_getChild_lt cs currentKey

theorem getHandlers_none {H : Type} (keys : List String) :
    getHandlers (H := H) none keys = [] := by
  simp [getHandlers]

theorem getHandlers_leaf {H : Type} (hs : List H) (keys : List String) :
    getHandlers (some (.hiocs hs)) keys = hs := by
  simp [getHandlers]

theorem getHandlers_node_nil {H : Type} (cs : List (String × HTree H)) :
    getHandlers (some (.tree cs)) [] = getHandlers (getChild cs "") [] := by
  simp [getHandlers]

theorem getHandlers_node_cons_empty {H : Type} (cs : List (String × HTree H))
    (rest : List String) :
    getHandlers (some (.tree cs)) ("" :: rest) = getHandlers (getChild cs "") rest := by
  simp [getHandlers]

theorem getHandlers_node_cons_ne {H : Type} (cs : List (String × HTree H))
    (k : String) (rest : List String) (hk : k ≠ "") :
    getHandlers (some (.tree cs)) (k :: rest) =
      getHandlers (getChild cs "") rest ++ getHandlers (getChild cs k) rest := by
  simp [getHandlers, hk]

/-- `EventDistribution.isHandlerForLocation` (src lines 291-308).  The
`return false` after the exhaustive switch in the source is unreachable for
the three enum values. -/
def isHandlerForLocation (handler : HIOC) (isDirectMessage : Bool) : Bool :=
  if !handler.options.messageRelated then true
  else
    match handler.options.location with
    | .anywhere => true
    | .directMessage => isDirectMessage
    | .server => !isDirectMessage

/-- `EventDistribution.isHandlerForRole` (src lines 310-321):
`!allowedRoles?.length || allowedRoles.some(role => roleNames.includes(role))`. -/
def isHandlerForRole (handler : HIOC) (roleNames : List String) : Bool :=
  if !handler.options.messageRelated then true
  else
    handler.options.allowedRoles.isEmpty ||
      handler.options.allowedRoles.any (fun role => roleNames.contains role)

/-- `EventDistribution.matchesContentRegex` (src lines 323-332).  The regex
engine is external; `regexMatch pattern content` models
`!!content.match(pattern)`. -/
def matchesContentRegex (regexMatch : String → String → Bool) (handler : HIOC)
    (content : Option String) : Bool :=
  if !handler.options.messageRelated || handler.options.contentRegex.isNone then true
  else
    match content with
    | none => false
    | some c =>
      match handler.options.contentRegex with
      | none => true
      | some pattern => regexMatch pattern c

/-- `FilterResult` (src lines 39-47): a candidate tagged as accepted, or
rejected with a reason. -/
inductive FilterResult where
  | accepted (handler : HIOC)
  | rejected (handler : HIOC) (reason : HandlerRejectedReason)
deriving DecidableEq

/-- The `accepted` field of a filter result. -/
def FilterResult.isAccepted : FilterResult → Bool
  | .accepted _ => true
  | .rejected _ _ => false

/-- The `handler` field of a filter result. -/
def FilterResult.handler : FilterResult → HIOC
  | .accepted h => h
  | .rejected h _ => h

/-- `EventDistribution.filterHandlers` (src lines 334-385): the three-stage
map chain.  Stage one classifies by location; the later stages pass
rejections through unchanged and re-check only still-accepted results. -/
def filterHandlers (regexMatch : String → String → Bool) (handlers : List HIOC)
    (isDirectMessage : Bool) (roleNames : List String) (content : Option String) :
    List FilterResult :=
  ((handlers.map fun eh =>
      if isHandlerForLocation eh isDirectMessage then FilterResult.accepted eh
      else FilterResult.rejected eh .wrongLocation).map fun r =>
      match r with
      | FilterResult.rejected _ _ => r
      | FilterResult.accepted h =>
        if isHandlerForRole h roleNames then r
        else FilterResult.rejected h .missingRole).map fun r =>
    match r with
    | FilterResult.rejected _ _ => r
    | FilterResult.accepted h =>
      if matchesContentRegex regexMatch h content then r
      else FilterResult.rejected h .doesntMatchRegex

/-- One occurrence of an event (`HandlerInfo` in `types/base`): the key path,
whether the source is a direct message, the invoking member's role names (if
any) and the content (if any).  It is produced by the external
`extractEventInfo` collaborator. -/
structure HandlerInfo where
  handlerKeys : List String
  isDirectMessage : Bool
  member : Option (List String)
  content : Option String

/-- `EventDistribution.infoToFilterResults` (src lines 73-90), with the
per-event registry tree passed explicitly. -/
def infoToFilterResults (regexMatch : String → String → Bool) (tree : HTree HIOC)
    (info : HandlerInfo) : List FilterResult :=
  let roleNames := info.member.getD []
  let eventHandlers := getHandlers (some tree) info.handlerKeys
  filterHandlers regexMatch eventHandlers info.isDirectMessage roleNames info.content

/-- Outcome of invoking one handler's `handle`: normal completion, or a
thrown/rejected failure carrying a message text and, for `ErrorWithParams`,
structured parameters. -/
inductive HandleOutcome where
  | success
  | failure (msg : String) (params : Option (List String))
deriving DecidableEq

/-- Observable effects of one dispatch: construction of a fresh instance of a
constructor-registered handler, invocation of a handler's `handle`, a
user-facing reply via the external `rejectWithError` (tagged with the handler
identity it was emitted for), and a telemetry capture
(`Sentry.captureException`) together with its accompanying error log. -/
inductive Effect where
  | constructed (ctorId : Nat)
  | invoked (ioc : InstanceOrConstructor)
  | reply (source : InstanceOrConstructor) (text : String) (params : Option (List String))
  | captureAndLog (msg : String)
deriving DecidableEq

/-- Plain lookup in the error-message map: is `key` a key of the map, and
with which value. -/
def lookupError (errors : Option (List (String × String))) (key : String) :
    Option String :=
  match errors with
  | none => none
  | some m => (m.find? fun p => p.1 == key).map (·.2)

/-- JavaScript truthiness of `errors && errors[key]`: the map must be present,
the key present, and the mapped text non-empty (the empty string is falsy). -/
def truthyError (errors : Option (List (String × String))) (key : String) :
    Option String :=
  match lookupError errors key with
  | none => none
  | some t => if t = "" then none else some t

/-- Construction effects for one handler execution:
`if (typeof instance === "function") instance = new instance();`. -/
def ctorEffects : InstanceOrConstructor → List Effect
  | .ctor i => [.constructed i]
  | .inst _ => []

/-- Effects of the catch block (src lines 198-214) for one handler whose
invocation had the given outcome: a mapped failure replies with the mapped
text (preserving params), an unmapped one is captured and logged. -/
def outcomeEffects (h : HIOC) : HandleOutcome → List Effect
  | .success => []
  | .failure msg params =>
    match truthyError h.options.errors msg with
    | some text => [.reply h.ioc text params]
    | none => [.captureAndLog msg]

/-- The accepted-handler loop of `EventDistribution.handleEvent`
(src lines 185-217): run each accepted handler in discovery order, skipping
identities already in `completedIocs`, and push the identity afterwards.
Returns the emitted effects and the final `completedIocs`. -/
def runAccepted (behave : InstanceOrConstructor → HandleOutcome) :
    List HIOC → List InstanceOrConstructor → List Effect × List InstanceOrConstructor
  | [], completed => ([], completed)
  | h :: rest, completed =>
    if completed.contains h.ioc then runAccepted behave rest completed
    else
      let effs := ctorEffects h.ioc ++ [Effect.invoked h.ioc] ++ outcomeEffects h (behave h.ioc)
      let next := runAccepted behave rest (completed ++ [h.ioc])
      (effs ++ next.1, next.2)

/-- The rejection loop of `EventDistribution.handleEvent`
(src lines 219-232): for each rejection whose identity has not completed and
whose error map has a truthy entry for the reason, reply and mark the
identity completed. -/
def runRejections :
    List (HIOC × HandlerRejectedReason) → List InstanceOrConstructor →
      List Effect × List InstanceOrConstructor
  | [], completed => ([], completed)
  | (h, reason) :: rest, completed =>
    if completed.contains h.ioc then runRejections rest completed
    else
      match truthyError h.options.errors (reasonKey reason) with
      | none => runRejections rest completed
      | some text =>
        let next := runRejections rest (completed ++ [h.ioc])
        (Effect.reply h.ioc text none :: next.1, next.2)

/-- `filterResults.filter(isRejection)` destructured into handler and reason. -/
def rejectionsOf (rs : List FilterResult) : List (HIOC × HandlerRejectedReason) :=
  rs.filterMap fun r =>
    match r with
    | .rejected h reason => some (h, reason)
    | .accepted _ => none

/-- `EventDistribution.handleEvent` (src lines 172-233) as an effect trace:
occurrences are flat-mapped to filter results, accepted handlers run first
with deduplication, then the rejection loop runs with the completed set left
by the accepted loop.  `extractEventInfo` is the external collaborator that
produces `infos`; `behave` is the handlers' business logic. -/
def handleEvent (regexMatch : String → String → Bool) (tree : HTree HIOC)
    (behave : InstanceOrConstructor → HandleOutcome) (infos : List HandlerInfo) :
    List Effect :=
  let filterResults := (infos.map (infoToFilterResults regexMatch tree)).flatten
  let acceptedHiocs := (filterResults.filter FilterResult.isAccepted).map FilterResult.handler
  let ranAccepted := runAccepted behave acceptedHiocs []
  let ranRejections := runRejections (rejectionsOf filterResults) ranAccepted.2
  ranAccepted.1 ++ ranRejections.1

/-- One declared option of a slash command; `autocomplete` is the optional
autocomplete callback (`"autocomplete" in option && option.autocomplete`),
which either returns suggestions or throws. -/
structure AutocompleteOptionDef where
  name : String
  autocomplete : Option (String → Except String (List String))

/-- The options bag of a slash-command descriptor, as far as autocomplete
routing reads it (`slashCommandHioc.options.options`, possibly undefined). -/
structure SlashOptions where
  options : Option (List AutocompleteOptionDef)

/-- A slash-command descriptor as seen by the autocomplete router. -/
structure SlashHIOC where
  ioc : InstanceOrConstructor
  options : SlashOptions

/-- The data `handleAutocomplete` reads off an `AutocompleteInteraction`:
command id, optional subcommand group and subcommand (`getSubcommandGroup
(false) ?? ""` and the like), and the focused option's name and value. -/
structure AutocompleteInteractionModel where
  commandId : String
  subcommandGroup : Option String
  subcommand : Option String
  focusedName : String
  focusedValue : String

/-- Observable effects of autocomplete routing: the two warning logs, the
error log of a failed callback, and `interaction.respond(suggestions)`. -/
inductive AutoEffect where
  | logWarn
  | logError
  | respond (suggestions : List String)
deriving DecidableEq

/-- The `slashCommandHandlerKeys` built in src lines 115-119. -/
def autocompleteKeys (i : AutocompleteInteractionModel) : List String :=
  [i.commandId, i.subcommandGroup.getD "", i.subcommand.getD ""]

/-- Resolution of the focused option on a descriptor (src lines 141-148):
find the option by name, then require a truthy `autocomplete` property. -/
def autocompleteCallback (hioc : SlashHIOC) (name : String) :
    Option (String → Except String (List String)) :=
  match (hioc.options.options.getD []).find? (fun o => o.name == name) with
  | none => none
  | some o => o.autocomplete

/-- `EventDistribution.handleAutocomplete` (src lines 112-170) as an effect
trace.  A routing miss or an option without autocomplete support logs a
warning and returns with no response; a callback failure is caught, logged
and answered with an empty suggestion list. -/
def handleAutocomplete (tree : HTree SlashHIOC) (i : AutocompleteInteractionModel) :
    List AutoEffect :=
  match getHandlers (some tree) (autocompleteKeys i) with
  | [] => [.logWarn]
  | hioc :: _ =>
    match autocompleteCallback hioc i.focusedName with
    | none => [.logWarn]
    | some cb =>
      match cb i.focusedValue with
      | .ok response => [.respond response]
      | .error _ => [.logError, .respond []]

/-- Following the spec's words (section 4.1): lookup is a fan-out union.  At
each key segment both the subtree keyed by the literal value (if present) and
the subtree keyed by the wildcard empty string (if present) are descended; if
the key path runs out only the wildcard branch continues; an empty key
segment adds no literal constraint beyond the wildcard branch; descriptors
found at any resulting terminal belong to the union. -/
inductive SpecReaches {H : Type} : HTree H → List String → List H → Prop where
  | terminal (hs : List H) (keys : List String) : SpecReaches (.hiocs hs) keys hs
  | wildcard {cs : List (String × HTree H)} {keys : List String} {t : HTree H}
      {hs : List H} : getChild cs "" = some t → SpecReaches t keys.tail hs →
      SpecReaches (.tree cs) keys hs
  | literal {cs : List (String × HTree H)} {k : String} {rest : List String}
      {t : HTree H} {hs : List H} : k ≠ "" → getChild cs k = some t →
      SpecReaches t rest hs → SpecReaches (.tree cs) (k :: rest) hs

theorem SpecReaches_tree_elim {H : Type} {cs : List (String × HTree H)}
    {keys : List String} {hs : List H} (h : SpecReaches (.tree cs) keys hs) :
    (∃ t, getChild cs "" = some t ∧ SpecReaches t keys.tail hs) ∨
      (∃ k rest t, keys = k :: rest ∧ k ≠ "" ∧ getChild cs k = some t ∧
        SpecReaches t rest hs) := by
  cases h with
  | wildcard hc hr => exact Or.inl ⟨_, hc, hr⟩
  | literal hk hc hr => exact Or.inr ⟨_, _, _, rfl, hk, hc, hr⟩

theorem SpecReaches_leaf_elim {H : Type} {hs hs' : List H} {keys : List String}
    (h : SpecReaches (.hiocs hs) keys hs') : hs' = hs := by
  cases h
  rfl

theorem mem_getHandlers {H : Type} (d : H) (o : Option (HTree H)) (keys : List String) :
    d ∈ getHandlers o keys ↔
      ∃ t hs, o = some t ∧ SpecReaches t keys hs ∧ d ∈ hs := by
  match o with
  | none =>
    simp [getHandlers_none]
  | some (.hiocs hs) =>
    rw [getHandlers_leaf]
    constructor
    · intro hd
      exact ⟨.hiocs hs, hs, rfl, .terminal hs keys, hd⟩
    · rintro ⟨t, hs', ht, hr, hd⟩
      cases ht
      rw [SpecReaches_leaf_elim hr] at hd
      exact hd
  | some (.tree cs) =>
    have ihWild := mem_getHandlers d (getChild cs "") keys.tail
    constructor
    · intro hd
      match keys with
      | [] =>
        rw [getHandlers_node_nil] at hd
        obtain ⟨t, hs, ht, hr, hmem⟩ := ihWild.mp hd
        exact ⟨.tree cs, hs, rfl, .wildcard ht hr, hmem⟩
      | k :: rest =>
        by_cases hk : k = ""
        · subst hk
          rw [getHandlers_node_cons_empty] at hd
          obtain ⟨t, hs, ht, hr, hmem⟩ := ihWild.mp hd
          exact ⟨.tree cs, hs, rfl, .wildcard ht hr, hmem⟩
        · rw [getHandlers_node_cons_ne cs k rest hk, List.mem_append] at hd
          rcases hd with hd | hd
          · obtain ⟨t, hs, ht, hr, hmem⟩ := ihWild.mp hd
            exact ⟨.tree cs, hs, rfl, .wildcard ht hr, hmem⟩
          · have ihLit := mem_getHandlers d (getChild cs k) rest
            obtain ⟨t, hs, ht, hr, hmem⟩ := ihLit.mp hd
            exact ⟨.tree cs, hs, rfl, .literal hk ht hr, hmem⟩
    · rintro ⟨t, hs, ht, hr, hmem⟩
      cases ht
      rcases SpecReaches_tree_elim hr with ⟨t', hc, hr'⟩ | ⟨k, rest, t', hkeys, hk, hc, hr'⟩
      · have hd : d ∈ getHandlers (getChild cs "") keys.tail :=
          ihWild.mpr ⟨_, hs, hc, hr', hmem⟩
        match keys with
        | [] =>
          rw [getHandlers_node_nil]
          exact hd
        | k :: rest =>
          by_cases hk : k = ""
          · subst hk
            rw [getHandlers_node_cons_empty]
            exact hd
          · rw [getHandlers_node_cons_ne cs k rest hk, List.mem_append]
            exact Or.inl hd
      · subst hkeys
        have ihLit := mem_getHandlers d (getChild cs k) rest
        rw [getHandlers_node_cons_ne cs k rest hk, List.mem_append]
        exact Or.inr (ihLit.mpr ⟨_, hs, hc, hr', hmem⟩)
termination_by sizeOf o
decreasing_by
  · exact sizeOf_getChild_lt cs ""
  · exact sizeOf_getChild_lt cs k
  · exact sizeOf_getChild_lt cs k

/-- Options bag with no constraints: not message related, no error map. -/
def plainOptions : HandlerOptions :=
  { messageRelated := false, location := .anywhere, allowedRoles := [],
    contentRegex := none, errors := none }

/-- Identity of the wildcard-registered example handler. -/
def wildIoc : InstanceOrConstructor := .inst 1

/-- Identity of the exact-path-registered example handler. -/
def exactIoc : InstanceOrConstructor := .inst 2

/-- Wildcard-path example handler. -/
def wildH : HIOC := { ioc := wildIoc, options := plainOptions }

/-- Exact-path example handler. -/
def exactH : HIOC := { ioc := exactIoc, options := plainOptions }

/-- Example registry holding the wildcard handler under the empty segment and
the exact handler under the segment named general. -/
def exTree : HTree HIOC := .tree [("", .hiocs [wildH]), ("general", .hiocs [exactH])]

/-- Example occurrence whose key path addresses the exact handler. -/
def exInfo : HandlerInfo :=
  { handlerKeys := ["general"], isDirectMessage := false, member := none, content := none }

/-- Regex oracle that never matches; the example handlers carry no pattern,
so it is never consulted. -/
def noMatch : String → String → Bool := fun _ _ => false

/-- Handler business logic in which every handler completes normally. -/
def allSucceed : InstanceOrConstructor → HandleOutcome := fun _ => .success

theorem exTree_lookup : getHandlers (some exTree) ["general"] = [wildH, exactH] := by
  simp [exTree, getHandlers_node_cons_ne, getChild, getHandlers_leaf, getHandlers_none]

theorem exTree_trace : handleEvent noMatch exTree allSucceed [exInfo] =
    [.invoked wildIoc, .invoked exactIoc] := by
  simp [handleEvent, infoToFilterResults, exInfo, exTree, getHandlers_node_cons_ne,
    getChild, getHandlers_leaf, getHandlers_none, filterHandlers, isHandlerForLocation,
    isHandlerForRole, matchesContentRegex, wildH, exactH, plainOptions, FilterResult.isAccepted,
    FilterResult.handler, runAccepted, runRejections, rejectionsOf, ctorEffects,
    outcomeEffects, allSucceed, wildIoc, exactIoc, truthyError, lookupError]

/-- C1 counterexample: in the registry `exTree`, which holds a wildcard-path
handler and an exact-path handler matched by the same occurrence, the lookup
discovers the wildcard handler first and the dispatch invokes it first — the
exact-path handler is not discovered or executed before the wildcard one, at
this concrete input, contrary to the claim. -/
theorem C1_counterexample :
    getHandlers (some exTree) ["general"] = [wildH, exactH] ∧ wildH ≠ exactH ∧
      handleEvent noMatch exTree allSucceed [exInfo] =
        [.invoked wildIoc, .invoked exactIoc] ∧ wildIoc ≠ exactIoc :=
  ⟨exTree_lookup, by decide, exTree_trace, by decide⟩

/-- C1 (amended): within one dispatch, handler execution order follows
occurrence order and then candidate discovery order from the registry
fan-out, where at each tree level the wildcard (empty-segment) subtree is
visited before the exact-match subtree; for a registry containing both an
exact-path handler and a wildcard-path handler matched by the same
occurrence, the wildcard-path handler is discovered, and hence executed,
before the exact-path handler. -/
theorem C1_wildcard_subtree_visited_first :
    (∀ (cs : List (String × HTree HIOC)) (k : String) (rest : List String)
       (tw te : HTree HIOC), k ≠ "" → getChild cs "" = some tw → getChild cs k = some te →
       getHandlers (some (.tree cs)) (k :: rest) =
         getHandlers (some tw) rest ++ getHandlers (some te) rest)
    ∧ handleEvent noMatch exTree allSucceed [exInfo] =
        [.invoked wildIoc, .invoked exactIoc] := by
  constructor
  · intro cs k rest tw te hk hw he
    rw [getHandlers_node_cons_ne cs k rest hk, hw, he]
  · exact exTree_trace

/-- C1 witness: the general fan-out ordering equation applied to the concrete
registry `exTree`. -/
theorem C1_witness :
    getHandlers (some exTree) ["general"] =
      getHandlers (some (.hiocs [wildH])) [] ++ getHandlers (some (.hiocs [exactH])) [] :=
  C1_wildcard_subtree_visited_first.1 _ "general" [] _ _ (by decide) rfl rfl

/-- C2: registry lookup is a fan-out union — a descriptor is returned exactly
when it sits at a terminal reachable by descending, at each key segment, the
literal child or the wildcard child per the spec's relation `SpecReaches`;
and in the concrete wildcard-plus-exact registry, one dispatch matching the
exact path invokes both handlers exactly once each. -/
theorem C2_fanout_union :
    (∀ (t : HTree HIOC) (keys : List String) (d : HIOC),
       d ∈ getHandlers (some t) keys ↔ ∃ hs, SpecReaches t keys hs ∧ d ∈ hs)
    ∧ (handleEvent noMatch exTree allSucceed [exInfo]).count (.invoked wildIoc) = 1
    ∧ (handleEvent noMatch exTree allSucceed [exInfo]).count (.invoked exactIoc) = 1 := by
  refine ⟨fun t keys d => ?_, ?_, ?_⟩
  · rw [mem_getHandlers]
    constructor
    · rintro ⟨t', hs, ht, hr, hd⟩
      cases ht
      exact ⟨hs, hr, hd⟩
    · rintro ⟨hs, hr, hd⟩
      exact ⟨t, hs, rfl, hr, hd⟩
  · rw [exTree_trace]
    decide
  · rw [exTree_trace]
    decide

/-- C3: when the key path runs out at an inner node, lookup continues only
into the wildcard branch; when the current key segment is the empty string,
the wildcard child is descended exactly once, so no descriptor reached
through it is duplicated for that branch. -/
theorem C3_exhausted_path_and_empty_segment :
    ∀ (cs : List (String × HTree HIOC)) (rest : List String) (d : HIOC),
      getHandlers (some (.tree cs)) [] = getHandlers (getChild cs "") [] ∧
      getHandlers (some (.tree cs)) ("" :: rest) = getHandlers (getChild cs "") rest ∧
      (getHandlers (some (.tree cs)) ("" :: rest)).count d =
        (getHandlers (getChild cs "") rest).count d := by
  intro cs rest d
  refine ⟨getHandlers_node_nil cs, getHandlers_node_cons_empty cs rest, ?_⟩
  rw [getHandlers_node_cons_empty]

/-- Following the spec's words (section 4.2): classify one candidate by
evaluating location, then role, then content pattern, reporting the first
failing stage. -/
def specClassify (regexMatch : String → String → Bool) (isDirectMessage : Bool)
    (roleNames : List String) (content : Option String) (h : HIOC) : FilterResult :=
  if !isHandlerForLocation h isDirectMessage then .rejected h .wrongLocation
  else if !isHandlerForRole h roleNames then .rejected h .missingRole
  else if !matchesContentRegex regexMatch h content then .rejected h .doesntMatchRegex
  else .accepted h

/-- Example handler violating both the location and the role constraint for a
direct-message occurrence with no roles. -/
def bothBadH : HIOC :=
  { ioc := .inst 3,
    options := { messageRelated := true, location := .server, allowedRoles := ["Support"],
                 contentRegex := none, errors := none } }

/-- C4: the filter pipeline emits exactly one result per candidate, in input
order, equal to the first-failing-stage classification in the fixed order
location, role, content; in particular a handler with both a disallowed
location and a disallowed role, on an occurrence violating both, is rejected
with the wrong-location reason. -/
theorem C4_filter_pipeline_order :
    (∀ (regexMatch : String → String → Bool) (hs : List HIOC) (isDirectMessage : Bool)
       (roleNames : List String) (content : Option String),
       filterHandlers regexMatch hs isDirectMessage roleNames content =
         hs.map (specClassify regexMatch isDirectMessage roleNames content))
    ∧ filterHandlers noMatch [bothBadH] true [] none =
        [.rejected bothBadH .wrongLocation] := by
  constructor
  · intro rm hs dm roles content
    induction hs with
    | nil => simp [filterHandlers]
    | cons h t ih =>
      simp only [filterHandlers, List.map_cons] at ih ⊢
      refine congrArg₂ _ ?_ ih
      cases hloc : isHandlerForLocation h dm with
      | false => simp [specClassify, hloc]
      | true =>
        cases hrole : isHandlerForRole h roles with
        | false => simp [specClassify, hloc, hrole]
        | true =>
          cases hcr : matchesContentRegex rm h content with
          | false => simp [specClassify, hloc, hrole, hcr]
          | true => simp [specClassify, hloc, hrole, hcr]
  · decide

/-- Scans a trace and checks that every invocation of a
constructor-registered handler is immediately preceded by the construction of
a fresh instance of that same constructor. -/
def freshOk : List Effect → Bool
  | .constructed i :: .invoked (.ctor j) :: rest => i == j && freshOk rest
  | .invoked (.ctor _) :: _ => false
  | _ :: rest => freshOk rest
  | [] => true

theorem freshOk_cons_reply (s : InstanceOrConstructor) (t : String)
    (p : Option (List String)) (l : List Effect) :
    freshOk (.reply s t p :: l) = freshOk l := rfl

theorem freshOk_cons_capture (m : String) (l : List Effect) :
    freshOk (.captureAndLog m :: l) = freshOk l := rfl

theorem freshOk_cons_invoked_inst (j : Nat) (l : List Effect) :
    freshOk (.invoked (.inst j) :: l) = freshOk l := rfl

theorem freshOk_ctor_pair (i : Nat) (l : List Effect) :
    freshOk (.constructed i :: .invoked (.ctor i) :: l) = freshOk l := by
  simp [freshOk]

theorem freshOk_outcome_append (h : HIOC) (o : HandleOutcome) (l : List Effect) :
    freshOk (outcomeEffects h o ++ l) = freshOk l := by
  cases o with
  | success => rfl
  | failure msg params =>
    simp only [outcomeEffects]
    cases truthyError h.options.errors msg with
    | none => simp [freshOk_cons_capture]
    | some text => simp [freshOk_cons_reply]

theorem freshOk_runAccepted_append (behave : InstanceOrConstructor → HandleOutcome) :
    ∀ (hs : List HIOC) (completed : List InstanceOrConstructor) (l : List Effect),
      freshOk ((runAccepted behave hs completed).1 ++ l) = freshOk l := by
  intro hs
  induction hs with
  | nil =>
    intro completed l
    simp [runAccepted]
  | cons h rest ih =>
    intro completed l
    by_cases hch : h.ioc ∈ completed
    · have hstep : runAccepted behave (h :: rest) completed = runAccepted behave rest completed := by
        simp [runAccepted, hch]
      rw [hstep]
      exact ih completed l
    · have hstep : (runAccepted behave (h :: rest) completed).1 =
          ctorEffects h.ioc ++ Effect.invoked h.ioc ::
            (outcomeEffects h (behave h.ioc) ++
              (runAccepted behave rest (completed ++ [h.ioc])).1) := by
        simp [runAccepted, hch]
      rw [hstep]
      cases hioc : h.ioc with
      | inst j =>
        simp only [ctorEffects, List.nil_append, List.cons_append, List.append_assoc]
        rw [freshOk_cons_invoked_inst, freshOk_outcome_append, ih]
      | ctor i =>
        simp only [ctorEffects, List.nil_append, List.cons_append, List.append_assoc]
        rw [freshOk_ctor_pair, freshOk_outcome_append, ih]

theorem runRejections_effects_reply :
    ∀ (rs : List (HIOC × HandlerRejectedReason)) (completed : List InstanceOrConstructor)
      (e : Effect), e ∈ (runRejections rs completed).1 → ∃ s t, e = .reply s t none := by
  intro rs
  induction rs with
  | nil =>
    intro c e he
    simp [runRejections] at he
  | cons p rest ih =>
    intro c e he
    obtain ⟨h, reason⟩ := p
    by_cases hch : h.ioc ∈ c
    · have hstep : runRejections ((h, reason) :: rest) c = runRejections rest c := by
        simp [runRejections, hch]
      rw [hstep] at he
      exact ih c e he
    · cases hm : truthyError h.options.errors (reasonKey reason) with
      | none =>
        have hstep : runRejections ((h, reason) :: rest) c = runRejections rest c := by
          simp [runRejections, hch, hm]
        rw [hstep] at he
        exact ih c e he
      | some text =>
        have hstep : (runRejections ((h, reason) :: rest) c).1 =
            Effect.reply h.ioc text none :: (runRejections rest (c ++ [h.ioc])).1 := by
          simp [runRejections, hch, hm]
        rw [hstep] at he
        rcases List.mem_cons.mp he with he | he
        · exact ⟨h.ioc, text, he⟩
        · exact ih (c ++ [h.ioc]) e he

theorem freshOk_of_replies :
    ∀ (l : List Effect), (∀ e ∈ l, ∃ s t, e = Effect.reply s t none) → freshOk l = true := by
  intro l
  induction l with
  | nil => intro _; rfl
  | cons e rest ih =>
    intro hall
    obtain ⟨s, t, he⟩ := hall e (List.mem_cons_self e rest)
    subst he
    rw [freshOk_cons_reply]
    exact ih fun e' he' => hall e' (List.mem_cons_of_mem _ he')

theorem freshOk_runRejections (rs : List (HIOC × HandlerRejectedReason))
    (c : List InstanceOrConstructor) : freshOk (runRejections rs c).1 = true :=
  freshOk_of_replies _ (runRejections_effects_reply rs c)

theorem count_invoked_ctorEffects (x ioc : InstanceOrConstructor) :
    (ctorEffects x).count (Effect.invoked ioc) = 0 := by
  cases x <;> simp [ctorEffects]

theorem count_invoked_outcomeEffects (h : HIOC) (o : HandleOutcome)
    (ioc : InstanceOrConstructor) :
    (outcomeEffects h o).count (Effect.invoked ioc) = 0 := by
  cases o with
  | success => rfl
  | failure msg params =>
    simp only [outcomeEffects]
    cases truthyError h.options.errors msg <;> simp

theorem count_invoked_runRejections (rs : List (HIOC × HandlerRejectedReason))
    (c : List InstanceOrConstructor) (ioc : InstanceOrConstructor) :
    ((runRejections rs c).1).count (Effect.invoked ioc) = 0 := by
  rw [List.count_eq_zero]
  intro hmem
  obtain ⟨s, t, he⟩ := runRejections_effects_reply rs c _ hmem
  simp at he

theorem count_invoked_runAccepted_of_mem (behave : InstanceOrConstructor → HandleOutcome) :
    ∀ (hs : List HIOC) (completed : List InstanceOrConstructor) (ioc : InstanceOrConstructor),
      ioc ∈ completed →
      ((runAccepted behave hs completed).1).count (Effect.invoked ioc) = 0 := by
  intro hs
  induction hs with
  | nil =>
    intro c ioc hc
    simp [runAccepted]
  | cons h rest ih =>
    intro c ioc hc
    by_cases hch : h.ioc ∈ c
    · have hstep : runAccepted behave (h :: rest) c = runAccepted behave rest c := by
        simp [runAccepted, hch]
      rw [hstep]
      exact ih c ioc hc
    · have hne : h.ioc ≠ ioc := fun he => hch (by rw [he]; exact hc)
      have hstep : (runAccepted behave (h :: rest) c).1 =
          ctorEffects h.ioc ++ Effect.invoked h.ioc ::
            (outcomeEffects h (behave h.ioc) ++
              (runAccepted behave rest (c ++ [h.ioc])).1) := by
        simp [runAccepted, hch]
      rw [hstep]
      have hc2 : ioc ∈ c ++ [h.ioc] := List.mem_append.mpr (Or.inl hc)
      simp [List.count_append, List.count_cons, count_invoked_ctorEffects,
        count_invoked_outcomeEffects, ih _ _ hc2, hne]

theorem count_invoked_runAccepted_le_one (behave : InstanceOrConstructor → HandleOutcome) :
    ∀ (hs : List HIOC) (completed : List InstanceOrConstructor) (ioc : InstanceOrConstructor),
      ((runAccepted behave hs completed).1).count (Effect.invoked ioc) ≤ 1 := by
  intro hs
  induction hs with
  | nil =>
    intro c ioc
    simp [runAccepted]
  | cons h rest ih =>
    intro c ioc
    by_cases hch : h.ioc ∈ c
    · have hstep : runAccepted behave (h :: rest) c = runAccepted behave rest c := by
        simp [runAccepted, hch]
      rw [hstep]
      exact ih c ioc
    · have hstep : (runAccepted behave (h :: rest) c).1 =
          ctorEffects h.ioc ++ Effect.invoked h.ioc ::
            (outcomeEffects h (behave h.ioc) ++
              (runAccepted behave rest (c ++ [h.ioc])).1) := by
        simp [runAccepted, hch]
      rw [hstep]
      by_cases heq : h.ioc = ioc
      · subst heq
        have hc2 : h.ioc ∈ c ++ [h.ioc] :=
          List.mem_append.mpr (Or.inr (List.mem_singleton_self _))
        simp [List.count_append, List.count_cons, count_invoked_ctorEffects,
          count_invoked_outcomeEffects,
          count_invoked_runAccepted_of_mem behave rest _ _ hc2]
      · have hle := ih (c ++ [h.ioc]) ioc
        have hne : (h.ioc = ioc) = False := by simp [heq]
        simp only [List.count_append, List.count_cons, count_invoked_ctorEffects,
          count_invoked_outcomeEffects, Effect.invoked.injEq, beq_iff_eq, hne,
          if_false, Nat.zero_add, Nat.add_zero]
        exact hle

/-- C5: within one dispatch, every handler identity has its `handle` invoked
at most once (deduplication across occurrences and key paths), and every
invocation of a constructor-registered handler is immediately preceded by the
construction of a fresh instance of that constructor. -/
theorem C5_dedup_and_fresh_construction :
    ∀ (regexMatch : String → String → Bool) (tree : HTree HIOC)
      (behave : InstanceOrConstructor → HandleOutcome) (infos : List HandlerInfo)
      (ioc : InstanceOrConstructor),
      (handleEvent regexMatch tree behave infos).count (Effect.invoked ioc) ≤ 1 ∧
      freshOk (handleEvent regexMatch tree behave infos) = true := by
  intro rm tree behave infos ioc
  constructor
  · simp only [handleEvent]
    rw [List.count_append, count_invoked_runRejections]
    have hle := count_invoked_runAccepted_le_one behave
      ((((infos.map (infoToFilterResults rm tree)).flatten).filter
        FilterResult.isAccepted).map FilterResult.handler) [] ioc
    omega
  · simp only [handleEvent]
    rw [freshOk_runAccepted_append, freshOk_runRejections]

/-- Recognizes a user-facing reply effect. -/
def Effect.isUserReply : Effect → Bool
  | .reply _ _ _ => true
  | _ => false

/-- Recognizes a telemetry-capture effect. -/
def Effect.isCapture : Effect → Bool
  | .captureAndLog _ => true
  | _ => false

/-- Number of user-facing replies in a trace. -/
def replyCount (l : List Effect) : Nat := (l.filter Effect.isUserReply).length

/-- Number of telemetry captures in a trace. -/
def captureCount (l : List Effect) : Nat := (l.filter Effect.isCapture).length

/-- Handler whose error map contains the key boom mapped to the empty
string. -/
def emptyMappedH : HIOC :=
  { ioc := .inst 6,
    options := { messageRelated := false, location := .anywhere, allowedRoles := [],
                 contentRegex := none, errors := some [("boom", "")] } }

/-- Registry holding only `emptyMappedH` at its root terminal. -/
def emptyMappedTree : HTree HIOC := .hiocs [emptyMappedH]

/-- Occurrence with an empty key path and no constraints. -/
def noKeyInfo : HandlerInfo :=
  { handlerKeys := [], isDirectMessage := false, member := none, content := none }

/-- Business logic in which every handler throws an error with message boom
and no structured parameters. -/
def boomBehave : InstanceOrConstructor → HandleOutcome := fun _ => .failure "boom" none

/-- C6 counterexample: the failure message boom is a key of the handler's
configured error-message map (mapped to the empty string), yet the dispatch
emits no reply and instead performs a telemetry capture — JavaScript
truthiness of `errors[reason]` treats an empty mapped text as unmapped. -/
theorem C6_counterexample :
    lookupError emptyMappedH.options.errors "boom" = some "" ∧
      handleEvent noMatch emptyMappedTree boomBehave [noKeyInfo] =
        [.invoked (.inst 6), .captureAndLog "boom"] := by
  constructor
  · decide
  · simp [handleEvent, infoToFilterResults, noKeyInfo, emptyMappedTree, getHandlers_leaf,
      filterHandlers, isHandlerForLocation, isHandlerForRole, matchesContentRegex,
      emptyMappedH, FilterResult.isAccepted, FilterResult.handler, runAccepted,
      runRejections, rejectionsOf, ctorEffects, outcomeEffects, boomBehave, truthyError,
      lookupError]

theorem count_reply_ctorEffects (x s : InstanceOrConstructor) (t : String)
    (p : Option (List String)) : (ctorEffects x).count (Effect.reply s t p) = 0 := by
  cases x <;> simp [ctorEffects]

theorem isUserReply_reply (s : InstanceOrConstructor) (t : String)
    (p : Option (List String)) : Effect.isUserReply (.reply s t p) = true := rfl

theorem isUserReply_invoked (i : InstanceOrConstructor) :
    Effect.isUserReply (.invoked i) = false := rfl

theorem isUserReply_capture (m : String) :
    Effect.isUserReply (.captureAndLog m) = false := rfl

theorem isCapture_capture (m : String) : Effect.isCapture (.captureAndLog m) = true := rfl

theorem isCapture_reply (s : InstanceOrConstructor) (t : String)
    (p : Option (List String)) : Effect.isCapture (.reply s t p) = false := rfl

theorem isCapture_invoked (i : InstanceOrConstructor) :
    Effect.isCapture (.invoked i) = false := rfl

theorem filter_isUserReply_ctorEffects (x : InstanceOrConstructor) :
    (ctorEffects x).filter Effect.isUserReply = [] := by
  cases x <;> simp [ctorEffects, Effect.isUserReply]

theorem filter_isCapture_ctorEffects (x : InstanceOrConstructor) :
    (ctorEffects x).filter Effect.isCapture = [] := by
  cases x <;> simp [ctorEffects, Effect.isCapture]

/-- C6 (amended): for every accepted handler whose invocation throws or
rejects, if the failure's message is a key of the configured error-message
map with a non-empty mapped text, the handler's effect segment contains
exactly one user-facing reply, carrying the mapped text and the failure's
structured parameters, and no telemetry capture; if the message is unmapped
(or mapped to the empty string, which JavaScript truthiness drops), the
segment contains exactly one telemetry capture (with its log) and no reply;
in both cases dispatch continues with the remaining accepted handlers and
the handler's identity marked completed. -/
theorem C6_error_mapping :
    ∀ (behave : InstanceOrConstructor → HandleOutcome) (h : HIOC) (rest : List HIOC)
      (completed : List InstanceOrConstructor) (msg : String) (params : Option (List String)),
      h.ioc ∉ completed → behave h.ioc = .failure msg params →
      ∃ seg, (runAccepted behave (h :: rest) completed).1 =
          seg ++ (runAccepted behave rest (completed ++ [h.ioc])).1 ∧
        (∀ text, truthyError h.options.errors msg = some text →
          seg.count (Effect.reply h.ioc text params) = 1 ∧
          replyCount seg = 1 ∧ captureCount seg = 0) ∧
        (truthyError h.options.errors msg = none →
          captureCount seg = 1 ∧ replyCount seg = 0) := by
  intro behave h rest completed msg params hmem hfail
  refine ⟨ctorEffects h.ioc ++ Effect.invoked h.ioc :: outcomeEffects h (behave h.ioc),
    ?_, ?_, ?_⟩
  · simp [runAccepted, hmem]
  · intro text htext
    rw [hfail]
    simp [outcomeEffects, htext, replyCount, captureCount, count_reply_ctorEffects,
      List.count_append, List.count_cons, List.filter_append, List.filter_cons,
      filter_isUserReply_ctorEffects, filter_isCapture_ctorEffects, isUserReply_reply,
      isUserReply_invoked, isUserReply_capture, isCapture_reply, isCapture_invoked,
      isCapture_capture]
  · intro hnone
    rw [hfail]
    simp [outcomeEffects, hnone, replyCount, captureCount, List.filter_append,
      List.filter_cons, filter_isUserReply_ctorEffects, filter_isCapture_ctorEffects,
      isUserReply_reply, isUserReply_invoked, isUserReply_capture, isCapture_reply,
      isCapture_invoked, isCapture_capture]

/-- Handler whose error map carries a non-empty text for the boom failure. -/
def mappedH : HIOC :=
  { ioc := .inst 8,
    options := { messageRelated := false, location := .anywhere, allowedRoles := [],
                 contentRegex := none, errors := some [("boom", "Sorry, that failed")] } }

/-- C6 witness: the amended error-mapping theorem applied to a concrete
handler whose boom failure is mapped to a non-empty text. -/
theorem C6_witness :
    ∃ seg, (runAccepted boomBehave [mappedH] []).1 =
        seg ++ (runAccepted boomBehave [] ([] ++ [mappedH.ioc])).1 ∧
      (∀ text, truthyError mappedH.options.errors "boom" = some text →
        seg.count (Effect.reply mappedH.ioc text none) = 1 ∧
        replyCount seg = 1 ∧ captureCount seg = 0) ∧
      (truthyError mappedH.options.errors "boom" = none →
        captureCount seg = 1 ∧ replyCount seg = 0) :=
  C6_error_mapping boomBehave mappedH [] [] "boom" none (by simp) rfl

/-- Handler restricted to the server whose error map maps the wrong-location
reason to the empty string. -/
def emptyReasonH : HIOC :=
  { ioc := .inst 7,
    options := { messageRelated := true, location := .server, allowedRoles := [],
                 contentRegex := none, errors := some [(reasonKey .wrongLocation, "")] } }

/-- Registry holding only `emptyReasonH` at its root terminal. -/
def emptyReasonTree : HTree HIOC := .hiocs [emptyReasonH]

/-- Direct-message occurrence with an empty key path. -/
def dmInfo : HandlerInfo :=
  { handlerKeys := [], isDirectMessage := true, member := none, content := none }

/-- C7 counterexample: the rejected handler has not been executed and its
error-message map does contain an entry for the wrong-location reason (the
empty string), yet the dispatch emits no reply at all — JavaScript truthiness
of `errors[reason]` silently drops empty-string entries. -/
theorem C7_counterexample :
    lookupError emptyReasonH.options.errors (reasonKey .wrongLocation) = some "" ∧
      handleEvent noMatch emptyReasonTree allSucceed [dmInfo] = [] := by
  constructor
  · decide
  · simp [handleEvent, infoToFilterResults, dmInfo, emptyReasonTree, getHandlers_leaf,
      filterHandlers, isHandlerForLocation, isHandlerForRole, matchesContentRegex,
      emptyReasonH, FilterResult.isAccepted, FilterResult.handler, runAccepted,
      runRejections, rejectionsOf, ctorEffects, outcomeEffects, allSucceed, truthyError,
      lookupError, reasonKey]

/-- C7 (amended): rejected filter results are processed strictly after all
accepted handlers have completed, and that phase emits only user-facing
replies (never telemetry); one rejection emits a reply exactly when its
handler's identity has not yet completed in this dispatch and the handler's
error-message map holds a non-empty entry for the rejection's reason —
rejections for already-completed identities, or without such a (non-empty)
entry, are dropped with no reply and no telemetry. -/
theorem C7_rejection_processing :
    (∀ (regexMatch : String → String → Bool) (tree : HTree HIOC)
       (behave : InstanceOrConstructor → HandleOutcome) (infos : List HandlerInfo),
       ∃ rejectionPhase,
         handleEvent regexMatch tree behave infos =
           (runAccepted behave
             ((((infos.map (infoToFilterResults regexMatch tree)).flatten).filter
               FilterResult.isAccepted).map FilterResult.handler) []).1 ++ rejectionPhase ∧
         ∀ e ∈ rejectionPhase, ∃ s t, e = Effect.reply s t none)
    ∧ (∀ (h : HIOC) (reason : HandlerRejectedReason)
         (rest : List (HIOC × HandlerRejectedReason)) (c : List InstanceOrConstructor),
         (h.ioc ∈ c → runRejections ((h, reason) :: rest) c = runRejections rest c)
         ∧ (truthyError h.options.errors (reasonKey reason) = none →
             runRejections ((h, reason) :: rest) c = runRejections rest c)
         ∧ (∀ text, h.ioc ∉ c →
             truthyError h.options.errors (reasonKey reason) = some text →
             (runRejections ((h, reason) :: rest) c).1 =
               Effect.reply h.ioc text none :: (runRejections rest (c ++ [h.ioc])).1)) := by
  constructor
  · intro rm tree behave infos
    exact ⟨_, rfl, runRejections_effects_reply _ _⟩
  · intro h reason rest c
    refine ⟨?_, ?_, ?_⟩
    · intro hmem
      simp [runRejections, hmem]
    · intro hnone
      by_cases hmem : h.ioc ∈ c
      · simp [runRejections, hmem]
      · simp [runRejections, hmem, hnone]
    · intro text hmem htext
      simp [runRejections, hmem, htext]

/-- Handler whose error map holds a non-empty text for the missing-role
reason. -/
def mappedRoleH : HIOC :=
  { ioc := .inst 10,
    options := { messageRelated := true, location := .anywhere, allowedRoles := ["Member"],
                 contentRegex := none,
                 errors := some [(reasonKey .missingRole, "You need the Member role")] } }

/-- C7 witness: the rejection-processing equations applied to concrete
rejections — an empty-string entry is dropped, a non-empty entry replies. -/
theorem C7_witness :
    runRejections [(emptyReasonH, .wrongLocation)] [] =
      runRejections [] [] ∧
    (runRejections [(mappedRoleH, .missingRole)] []).1 =
      Effect.reply mappedRoleH.ioc "You need the Member role" none ::
        (runRejections [] ([] ++ [mappedRoleH.ioc])).1 :=
  ⟨(C7_rejection_processing.2 emptyReasonH .wrongLocation [] []).2.1 (by decide),
    (C7_rejection_processing.2 mappedRoleH .missingRole [] []).2.2
      "You need the Member role" (by simp) (by decide)⟩

/-- Empty slash-command registry. -/
def emptySlashTree : HTree SlashHIOC := .tree []

/-- Concrete autocomplete request. -/
def autoInteraction : AutocompleteInteractionModel :=
  { commandId := "123", subcommandGroup := none, subcommand := none,
    focusedName := "query", focusedValue := "par" }

theorem emptySlashTree_miss :
    getHandlers (some emptySlashTree) (autocompleteKeys autoInteraction) = [] := by
  simp [emptySlashTree, autocompleteKeys, autoInteraction, getHandlers_node_cons_ne,
    getChild, getHandlers_none]

/-- C8 counterexample: an autocomplete request whose key-path lookup resolves
to no slash-command descriptor makes the router log a warning and return with
no response at all — no empty suggestion list is sent to the platform,
contrary to the claim. -/
theorem C8_counterexample :
    handleAutocomplete emptySlashTree autoInteraction = [.logWarn] ∧
      AutoEffect.respond [] ∉ handleAutocomplete emptySlashTree autoInteraction := by
  have h : handleAutocomplete emptySlashTree autoInteraction = [.logWarn] := by
    simp [handleAutocomplete, emptySlashTree_miss]
  refine ⟨h, ?_⟩
  rw [h]
  decide

/-- C8 (amended): for every autocomplete request whose key-path lookup
resolves to no slash-command descriptor, the router logs a warning and
returns without sending any response to the platform; likewise, if the
resolved descriptor has no option matching the focused option's name or that
option does not declare autocomplete support, the router logs a warning and
returns without responding. -/
theorem C8_autocomplete_miss_no_response :
    ∀ (tree : HTree SlashHIOC) (i : AutocompleteInteractionModel),
      (getHandlers (some tree) (autocompleteKeys i) = [] →
        handleAutocomplete tree i = [.logWarn])
      ∧ (∀ (h : SlashHIOC) (rest : List SlashHIOC),
          getHandlers (some tree) (autocompleteKeys i) = h :: rest →
          autocompleteCallback h i.focusedName = none →
          handleAutocomplete tree i = [.logWarn]) := by
  intro tree i
  constructor
  · intro hempty
    simp [handleAutocomplete, hempty]
  · intro h rest hcons hnone
    simp [handleAutocomplete, hcons, hnone]

/-- A second concrete autocomplete request, addressing a command that is not
registered either. -/
def otherInteraction : AutocompleteInteractionModel :=
  { commandId := "999", subcommandGroup := none, subcommand := none,
    focusedName := "city", focusedValue := "ber" }

/-- C8 witness: the amended routing-miss theorem applied to the empty
registry. -/
theorem C8_witness : handleAutocomplete emptySlashTree otherInteraction = [.logWarn] :=
  (C8_autocomplete_miss_no_response emptySlashTree otherInteraction).1
    (by simp [emptySlashTree, autocompleteKeys, otherInteraction,
      getHandlers_node_cons_ne, getChild, getHandlers_none])

/-- C9: once an autocomplete request resolves to a descriptor and an option
with a callback, a callback that throws leads to an error log and an
empty-suggestion response to the platform (the failure is contained and never
propagates), and a successful callback's suggestions are sent as the
response. -/
theorem C9_autocomplete_callback_safety :
    ∀ (tree : HTree SlashHIOC) (i : AutocompleteInteractionModel) (h : SlashHIOC)
      (rest : List SlashHIOC) (cb : String → Except String (List String)),
      getHandlers (some tree) (autocompleteKeys i) = h :: rest →
      autocompleteCallback h i.focusedName = some cb →
      (∀ err, cb i.focusedValue = .error err →
        handleAutocomplete tree i = [.logError, .respond []])
      ∧ (∀ suggestions, cb i.focusedValue = .ok suggestions →
          handleAutocomplete tree i = [.respond suggestions]) := by
  intro tree i h rest cb hcons hcb
  constructor
  · intro err herr
    simp [handleAutocomplete, hcons, hcb, herr]
  · intro suggestions hok
    simp [handleAutocomplete, hcons, hcb, hok]

/-- Slash-command option whose autocomplete callback always throws. -/
def failingOption : AutocompleteOptionDef :=
  { name := "query", autocomplete := some (fun _ => .error "boom") }

/-- Slash-command descriptor carrying `failingOption`. -/
def failingSlashH : SlashHIOC :=
  { ioc := .inst 9, options := { options := some [failingOption] } }

/-- Slash-command registry with `failingSlashH` under command id 456. -/
def failingSlashTree : HTree SlashHIOC := .tree [("456", .hiocs [failingSlashH])]

/-- Autocomplete request addressing `failingSlashH` and its failing option. -/
def failingInteraction : AutocompleteInteractionModel :=
  { commandId := "456", subcommandGroup := none, subcommand := none,
    focusedName := "query", focusedValue := "x" }

/-- C9 witness: the callback-safety theorem applied to a registry whose only
callback throws — the platform still receives an empty suggestion list. -/
theorem C9_witness :
    handleAutocomplete failingSlashTree failingInteraction = [.logError, .respond []] :=
  (C9_autocomplete_callback_safety failingSlashTree failingInteraction failingSlashH []
      (fun _ => .error "boom")
      (by simp [failingSlashTree, autocompleteKeys, failingInteraction,
        getHandlers_node_cons_ne, getChild, getHandlers_leaf, getHandlers_none])
      rfl).1 "boom" rfl

/-- Number of user-facing replies in a trace that were emitted for the given
handler identity. -/
def iocReplyCount (l : List Effect) (ioc : InstanceOrConstructor) : Nat :=
  (l.filter fun e =>
    match e with
    | Effect.reply s _ _ => s == ioc
    | _ => false).length

theorem iocReplyCount_runRejections_of_mem :
    ∀ (rs : List (HIOC × HandlerRejectedReason)) (c : List InstanceOrConstructor)
      (ioc : InstanceOrConstructor), ioc ∈ c →
      iocReplyCount (runRejections rs c).1 ioc = 0 := by
  intro rs
  induction rs with
  | nil =>
    intro c ioc hc
    simp [runRejections, iocReplyCount]
  | cons p rest ih =>
    intro c ioc hc
    obtain ⟨h, reason⟩ := p
    by_cases hch : h.ioc ∈ c
    · have hstep : runRejections ((h, reason) :: rest) c = runRejections rest c := by
        simp [runRejections, hch]
      rw [hstep]
      exact ih c ioc hc
    · cases hm : truthyError h.options.errors (reasonKey reason) with
      | none =>
        have hstep : runRejections ((h, reason) :: rest) c = runRejections rest c := by
          simp [runRejections, hch, hm]
        rw [hstep]
        exact ih c ioc hc
      | some text =>
        have hstep : (runRejections ((h, reason) :: rest) c).1 =
            Effect.reply h.ioc text none :: (runRejections rest (c ++ [h.ioc])).1 := by
          simp [runRejections, hch, hm]
        rw [hstep]
        have hne : h.ioc ≠ ioc := fun he => hch (by rw [he]; exact hc)
        have hc2 : ioc ∈ c ++ [h.ioc] := List.mem_append.mpr (Or.inl hc)
        simp [iocReplyCount, List.filter_cons, hne] at ih ⊢
        exact ih (c ++ [h.ioc]) ioc hc2

theorem iocReplyCount_runRejections_le_one :
    ∀ (rs : List (HIOC × HandlerRejectedReason)) (c : List InstanceOrConstructor)
      (ioc : InstanceOrConstructor),
      iocReplyCount (runRejections rs c).1 ioc ≤ 1 := by
  intro rs
  induction rs with
  | nil =>
    intro c ioc
    simp [runRejections, iocReplyCount]
  | cons p rest ih =>
    intro c ioc
    obtain ⟨h, reason⟩ := p
    by_cases hch : h.ioc ∈ c
    · have hstep : runRejections ((h, reason) :: rest) c = runRejections rest c := by
        simp [runRejections, hch]
      rw [hstep]
      exact ih c ioc
    · cases hm : truthyError h.options.errors (reasonKey reason) with
      | none =>
        have hstep : runRejections ((h, reason) :: rest) c = runRejections rest c := by
          simp [runRejections, hch, hm]
        rw [hstep]
        exact ih c ioc
      | some text =>
        have hstep : (runRejections ((h, reason) :: rest) c).1 =
            Effect.reply h.ioc text none :: (runRejections rest (c ++ [h.ioc])).1 := by
          simp [runRejections, hch, hm]
        rw [hstep]
        by_cases heq : h.ioc = ioc
        · subst heq
          have hc2 : h.ioc ∈ c ++ [h.ioc] :=
            List.mem_append.mpr (Or.inr (List.mem_singleton_self _))
          have hzero := iocReplyCount_runRejections_of_mem rest (c ++ [h.ioc]) h.ioc hc2
          have hcons : iocReplyCount (Effect.reply h.ioc text none ::
              (runRejections rest (c ++ [h.ioc])).1) h.ioc =
              iocReplyCount (runRejections rest (c ++ [h.ioc])).1 h.ioc + 1 := by
            simp [iocReplyCount, List.filter_cons]
          rw [hcons, hzero]
        · have hle := ih (c ++ [h.ioc]) ioc
          simp [iocReplyCount, List.filter_cons, heq] at hle ⊢
          exact hle

/-- C10: within one dispatch, the rejection-processing loop emits at most one
user-facing rejection reply per handler identity — once a reply is emitted
for an identity it is added to the completed set, so further rejected filter
results for the same identity (from other occurrences or other matched key
paths) emit nothing; identities already completed before the loop (executed
handlers) receive no rejection reply at all. -/
theorem C10_one_rejection_reply_per_identity :
    ∀ (rs : List (HIOC × HandlerRejectedReason)) (c : List InstanceOrConstructor)
      (ioc : InstanceOrConstructor),
      iocReplyCount (runRejections rs c).1 ioc ≤ 1 ∧
      (ioc ∈ c → iocReplyCount (runRejections rs c).1 ioc = 0) :=
  fun rs c ioc =>
    ⟨iocReplyCount_runRejections_le_one rs c ioc,
      iocReplyCount_runRejections_of_mem rs c ioc⟩

/-- C10 witness: for an identity already completed (executed) before the
rejection loop, a rejection carrying a configured message still emits no
reply, and in any case at most one reply is emitted for it. -/
theorem C10_witness :
    iocReplyCount (runRejections [(mappedRoleH, .missingRole)] [mappedRoleH.ioc]).1
        mappedRoleH.ioc = 0 ∧
      iocReplyCount (runRejections
        [(mappedRoleH, .missingRole), (mappedRoleH, .wrongLocation)] []).1
        mappedRoleH.ioc ≤ 1 :=
  ⟨(C10_one_rejection_reply_per_identity [(mappedRoleH, .missingRole)]
      [mappedRoleH.ioc] mappedRoleH.ioc).2 (by simp),
    (C10_one_rejection_reply_per_identity
      [(mappedRoleH, .missingRole), (mappedRoleH, .wrongLocation)] []
      mappedRoleH.ioc).1⟩

end YesBot
